import Mathlib

/-!
Verification of the SHA-256 implementation in `sha256.cpp` / `Word.h`
(bwedding/sha-256).

The C++ code is shallowly embedded: `uint32_t` values are `Nat` reduced
modulo `2 ^ 32` wherever the C++ arithmetic wraps, `uint64_t` / `size_t`
values are `Nat` reduced modulo `2 ^ 64`, byte vectors are `List Nat`
(entries below 256), and the in-place mutation of the message buffer in
`message` is made explicit by returning the final buffer alongside the
digest.
-/

namespace Sha

/-- Modulus of `uint32_t` arithmetic. -/
def M32 : Nat := 2 ^ 32

/-- Modulus of `uint64_t` / `size_t` arithmetic. -/
def M64 : Nat := 2 ^ 64

/-- `ROTR(x, shift)` of sha256.cpp (`__builtin_rotateright32`), for the
constant rotation counts 2..25 used there. -/
def rotr (x n : Nat) : Nat := ((x >>> n) ||| (x <<< (32 - n))) % M32

/-- Bitwise complement `~x` on `uint32_t`. -/
def compl32 (x : Nat) : Nat := x ^^^ 0xFFFFFFFF

/-- The `Ch` function of sha256.cpp (FIPS 180-4 eq. 4.2). -/
def Ch (x y z : Nat) : Nat := (x &&& y) ^^^ (compl32 x &&& z)

/-- The `Maj` function of sha256.cpp (FIPS 180-4 eq. 4.3). -/
def Maj (x y z : Nat) : Nat := (x &&& y) ^^^ (x &&& z) ^^^ (y &&& z)

/-- `sigma_4_4` of sha256.cpp. -/
def sigma_4_4 (x : Nat) : Nat := rotr x 2 ^^^ rotr x 13 ^^^ rotr x 22

/-- `sigma_4_5` of sha256.cpp. -/
def sigma_4_5 (x : Nat) : Nat := rotr x 6 ^^^ rotr x 11 ^^^ rotr x 25

/-- `sigma_4_6` of sha256.cpp. -/
def sigma_4_6 (x : Nat) : Nat := rotr x 7 ^^^ rotr x 18 ^^^ (x >>> 3)

/-- `sigma_4_7` of sha256.cpp. -/
def sigma_4_7 (x : Nat) : Nat := rotr x 17 ^^^ rotr x 19 ^^^ (x >>> 10)

/-- The round-constant table `K` of sha256.cpp (section 4.2.2), written in
decimal: row by row these are the source's hex words 0x428a2f98,
0x71374491, ..., 0xc67178f2. -/
def K : List Nat :=
  [1116352408, 1899447441, 3049323471, 3921009573,
   961987163, 1508970993, 2453635748, 2870763221,
   3624381080, 310598401, 607225278, 1426881987,
   1925078388, 2162078206, 2614888103, 3248222580,
   3835390401, 4022224774, 264347078, 604807628,
   770255983, 1249150122, 1555081692, 1996064986,
   2554220882, 2821834349, 2952996808, 3210313671,
   3336571891, 3584528711, 113926993, 338241895,
   666307205, 773529912, 1294757372, 1396182291,
   1695183700, 1986661051, 2177026350, 2456956037,
   2730485921, 2820302411, 3259730800, 3345764771,
   3516065817, 3600352804, 4094571909, 275423344,
   430227734, 506948616, 659060556, 883997877,
   958139571, 1322822218, 1537002063, 1747873779,
   1955562222, 2024104815, 2227730452, 2361852424,
   2428436474, 2756734187, 3204031479, 3329325298]

/-- The initial hash value `H0` of sha256.cpp (section 5.3.3), in decimal:
these are the source's hex words 0x6a09e667 ... 0x5be0cd19. -/
def H0 : List Nat :=
  [1779033703, 3144134277, 1013904242, 2773480762,
   1359893119, 2600822924, 528734635, 1541459225]

/-- `std::vector::resize(n, 0)`: truncate to `n` elements, or grow to `n`
elements by appending zeros. -/
def resize (xs : List Nat) (n : Nat) : List Nat :=
  if n ≤ xs.length then xs.take n else xs ++ List.replicate (n - xs.length) 0

/-- The final loop of `pad`: the bytes of the `uint64_t` length `l` pushed
from the most significant byte down to the least significant one (the
byte-reversal loop on a little-endian host), i.e. `l` in big-endian. -/
def be64 (l : Nat) : List Nat :=
  [(l >>> 56) % 256, (l >>> 48) % 256, (l >>> 40) % 256, (l >>> 32) % 256,
   (l >>> 24) % 256, (l >>> 16) % 256, (l >>> 8) % 256, l % 256]

/-- `pad(l)` of sha256.cpp. The spill-branch expression
`960 - (l % 1024 + 1)` is `size_t` arithmetic, which wraps modulo `2 ^ 64`
when `l % 1024` is at least 960; the wrap is written out explicitly.
In the final branch the guard `l % 512 ≤ 440` keeps `448 - (l % 512 + 1)`
from wrapping, so plain truncated subtraction is exact there. -/
def pad (l : Nat) : List Nat :=
  if l = 0 then
    resize [0x80] 56 ++ be64 l
  else if l % 512 = 0 then
    []
  else if l % 512 > 440 then
    let k := (960 + M64 - (l % 1024 + 1)) % M64
    resize [0x80] (k / 8 + 1) ++ be64 l
  else
    let k := 448 - (l % 512 + 1)
    resize [0x80] (k / 8 + 1) ++ be64 l

/-- `schedule(M)` of sha256.cpp, with the word list kept reversed while the
loop runs: the head of `acc` is `W[t-1]`, so `acc.getD 1 0` is `W[t-2]`,
`acc.getD 6 0` is `W[t-7]`, `acc.getD 14 0` is `W[t-15]` and
`acc.getD 15 0` is `W[t-16]`. -/
def schedRev : Nat → List Nat → List Nat
  | 0, acc => acc
  | n + 1, acc =>
      schedRev n
        (((sigma_4_7 (acc.getD 1 0) + acc.getD 6 0 +
           sigma_4_6 (acc.getD 14 0) + acc.getD 15 0) % M32) :: acc)

/-- `schedule(M)` of sha256.cpp: the 16 block words followed by 48 expanded
words. -/
def schedule (Mb : List Nat) : List Nat := (schedRev 48 Mb.reverse).reverse

/-- The working variables `a..h` of `runschedule`. -/
structure WorkVars where
  a : Nat
  b : Nat
  c : Nat
  d : Nat
  e : Nat
  f : Nat
  g : Nat
  h : Nat

/-- The working variables initialised from the digest words `H[0..7]`
(lines 188-189 of sha256.cpp). -/
def initWork (H : List Nat) : WorkVars :=
  ⟨H.getD 0 0, H.getD 1 0, H.getD 2 0, H.getD 3 0,
   H.getD 4 0, H.getD 5 0, H.getD 6 0, H.getD 7 0⟩

/-- One iteration of the 64-round loop of `runschedule`, consuming the pair
`(K[t], W[t])`. -/
def roundStep (s : WorkVars) (kw : Nat × Nat) : WorkVars :=
  let T1 := (s.h + sigma_4_5 s.e + Ch s.e s.f s.g + kw.1 + kw.2) % M32
  let T2 := (sigma_4_4 s.a + Maj s.a s.b s.c) % M32
  { a := (T1 + T2) % M32, b := s.a, c := s.b, d := s.c,
    e := (s.d + T1) % M32, f := s.e, g := s.f, h := s.g }

/-- `runschedule(W, H)` of sha256.cpp: run the 64 rounds over the paired
`K[t]`, `W[t]` values and add the final working variables onto `H`
word-wise modulo `2 ^ 32`. -/
def runschedule (W H : List Nat) : List Nat :=
  let s := (K.zip W).foldl roundStep (initWork H)
  [(H.getD 0 0 + s.a) % M32, (H.getD 1 0 + s.b) % M32,
   (H.getD 2 0 + s.c) % M32, (H.getD 3 0 + s.d) % M32,
   (H.getD 4 0 + s.e) % M32, (H.getD 5 0 + s.f) % M32,
   (H.getD 6 0 + s.g) % M32, (H.getD 7 0 + s.h) % M32]

/-- The byte-packing of the inner block loop of `message`: four successive
bytes are shifted into one `uint32_t` word big-endian. The bytes are below
256, so the single trailing reduction equals the per-step `uint32_t`
truncation. -/
def toWord (a b c d : Nat) : Nat :=
  ((((((a <<< 8) ||| b) <<< 8) ||| c) <<< 8) ||| d) % M32

/-- The byte stream grouped four bytes to a word, as read by the inner
`do`-loop of `message`. -/
def words4 : List Nat → List Nat
  | a :: b :: c :: d :: rest => toWord a b c d :: words4 rest
  | _ => []

/-- The word stream grouped 16 words to a block, as consumed per iteration
of the outer `do`-loop of `message`. A trailing group of fewer than 16
words cannot arise from a correctly padded buffer; it is kept as a short
block. -/
def chunk16 : List Nat → List (List Nat)
  | w1 :: w2 :: w3 :: w4 :: w5 :: w6 :: w7 :: w8 ::
    w9 :: w10 :: w11 :: w12 :: w13 :: w14 :: w15 :: w16 :: rest =>
      [w1, w2, w3, w4, w5, w6, w7, w8,
       w9, w10, w11, w12, w13, w14, w15, w16] :: chunk16 rest
  | [] => []
  | l => [l]

/-- `message(msg)` of sha256.cpp with the reference parameter made
explicit: the first component is the returned digest, the second is the
byte buffer as the caller sees it after the call (original bytes with the
padding appended in place). -/
def messageS (msg : List Nat) : List Nat × List Nat :=
  let padding := pad ((msg.length * 8) % M64)
  let buf := msg ++ padding
  ((chunk16 (words4 buf)).foldl (fun H B => runschedule (schedule B) H) H0, buf)

/-- The digest returned by `message(msg)`. -/
def message (msg : List Nat) : List Nat := (messageS msg).1

/-- The `startPad` block tail of `hashDigest`. -/
def startPad : List Nat :=
  [0x80000000, 0x00000000, 0x00000000, 0x00000000,
   0x00000000, 0x00000000, 0x00000000, 0x00000200]

/-- `hashDigest(d)` of sha256.cpp: the block is the 8 digest words followed
by the 8 fixed padding words, run through one schedule and compression pass
from `H0`. -/
def hashDigest (d : List Nat) : List Nat :=
  runschedule (schedule (d ++ startPad)) H0

/-- Modelled from the spec: `serialize` writes each of the 8 digest words
big-endian, giving the 32-byte message fed back into `digest` (the
serialization itself appears in the repository only as hex output). -/
def serializeDigest (d : List Nat) : List Nat :=
  (d.map (fun w => [(w >>> 24) % 256, (w >>> 16) % 256, (w >>> 8) % 256, w % 256])).flatten

/-- `Word::operator/` of Word.h: `uint32_t` division, undefined behaviour
on a zero divisor, hence `none` there. -/
def wordDiv (a b : Nat) : Option Nat := if b = 0 then none else some (a / b)

/-- `Word::operator%` of Word.h: `uint32_t` remainder, undefined behaviour
on a zero divisor. -/
def wordMod (a b : Nat) : Option Nat := if b = 0 then none else some (a % b)

/-- `Word::operator<<` of Word.h: `uint32_t` left shift, undefined
behaviour for counts of 32 and more. -/
def wordShl (a n : Nat) : Option Nat := if n < 32 then some ((a <<< n) % M32) else none

/-- `Word::operator>>` of Word.h: `uint32_t` right shift, undefined
behaviour for counts of 32 and more. -/
def wordShr (a n : Nat) : Option Nat := if n < 32 then some (a >>> n) else none

/-- `Word::rotl` of Word.h (`std::rotl`): total, the count acts modulo
32. -/
def wordRotl (x n : Nat) : Nat :=
  ((x <<< (n % 32)) ||| (x >>> ((32 - n % 32) % 32))) % M32

/-- `Word::rotr` of Word.h (`std::rotr`): total, the count acts modulo
32. -/
def wordRotr (x n : Nat) : Nat :=
  ((x >>> (n % 32)) ||| (x <<< ((32 - n % 32) % 32))) % M32

/-- The argument loop of `main` (sha256.cpp lines 311-318): a `-` argument
sets the doublehash flag and is skipped, any other argument is paired with
the flag currently in effect. -/
def cliProcess : Bool → List String → List (String × Bool)
  | _, [] => []
  | dh, a :: rest =>
      if a = "-" then cliProcess true rest else (a, dh) :: cliProcess dh rest

/-- Modelled from the spec's reading in claim C8: each `-` argument
toggles the flag instead of setting it. -/
def cliToggle : Bool → List String → List (String × Bool)
  | _, [] => []
  | dh, a :: rest =>
      if a = "-" then cliToggle (!dh) rest else (a, dh) :: cliToggle dh rest

/-- One lowercase hex digit, as produced by `std::hex` output. -/
def hexChar (n : Nat) : Char :=
  if n < 10 then Char.ofNat (48 + n) else Char.ofNat (87 + n)

/-- One digest word printed as 8 lowercase hex digits
(`std::setw(8) << std::setfill('0') << std::hex` in `main`). -/
def wordHex (w : Nat) : List Char :=
  [hexChar ((w >>> 28) % 16), hexChar ((w >>> 24) % 16),
   hexChar ((w >>> 20) % 16), hexChar ((w >>> 16) % 16),
   hexChar ((w >>> 12) % 16), hexChar ((w >>> 8) % 16),
   hexChar ((w >>> 4) % 16), hexChar (w % 16)]

/-- The digest serialised big-endian as lowercase hex, as printed by
`main`. -/
def digestHex (d : List Nat) : String :=
  String.mk (d.map wordHex).flatten

/-! ## Padding lemmas -/

theorem resize_length (xs : List Nat) (n : Nat) : (resize xs n).length = n := by
  unfold resize
  split
  · simp [List.length_take]
    omega
  · simp
    omega

theorem pad_length (l : Nat) : (pad l).length =
    if l = 0 then 64
    else if l % 512 = 0 then 0
    else if l % 512 > 440 then ((960 + M64 - (l % 1024 + 1)) % M64) / 8 + 1 + 8
    else (448 - (l % 512 + 1)) / 8 + 1 + 8 := by
  unfold pad
  split
  · simp [resize_length, be64]
  · split
    · rfl
    · split <;> simp [resize_length, be64]

/-- C3 counterexample: at bit-length 1 the padding is a whole number of
bytes, so the padded total 513 bits cannot be a multiple of 512; the claim
quantified over every bit-length fails. -/
theorem pad_total_not_multiple_at_one :
    ¬ ((1 + 8 * (pad 1).length) % 512 = 0) := by decide

/-- C3 (amended): for every byte-aligned bit-length `l` outside the
nonzero-multiple-of-512 branch, the message length plus padding length in
bits is a multiple of 512 — also in the spill branch, where the `size_t`
expression `960 - (l % 1024 + 1)` wraps modulo `2 ^ 64` once
`l % 1024 ≥ 960`. -/
theorem pad_total_multiple_of_512 (l : Nat) (_hl : l < M64) (h8 : l % 8 = 0)
    (hx : ¬ (l ≠ 0 ∧ l % 512 = 0)) : (l + 8 * (pad l).length) % 512 = 0 := by
  have hM : M64 = 18446744073709551616 := by norm_num [M64]
  rw [pad_length]
  rw [hM]
  by_cases h0 : l = 0
  · simp [h0]
  · have h512 : ¬ (l % 512 = 0) := fun hc => hx ⟨h0, hc⟩
    simp only [h0, h512, if_false]
    split <;> omega

theorem pad_total_multiple_of_512_witness :
    24 < M64 ∧ 24 % 8 = 0 ∧ ¬ ((24 : Nat) ≠ 0 ∧ 24 % 512 = 0) ∧
    (24 + 8 * (pad 24).length) % 512 = 0 :=
  ⟨by norm_num [M64], by decide, by decide,
   pad_total_multiple_of_512 24 (by norm_num [M64]) (by decide) (by decide)⟩

/-- C4 counterexample: at bit-length 512 (a 64-byte message) `pad` does not
take the spill branch — the guard `l % 512 > 440` is false — and it emits
no padding at all, so nothing is placed in a second block. -/
theorem pad_512_not_spill :
    ¬ ((64 * 8) % 512 > 440) ∧ pad (64 * 8) = [] := by
  constructor
  · decide
  · decide

/-- C4 (amended): for a 64-byte message `pad` takes the
`l % 512 == 0` branch and returns empty padding, so the buffer is left
unchanged and no second block is created. -/
theorem pad_512_empty (msg : List Nat) (h : msg.length = 64) :
    (msg.length * 8) % 512 = 0 ∧ pad ((msg.length * 8) % M64) = [] ∧
    (messageS msg).2 = msg := by
  rw [h]
  refine ⟨by decide, by decide, ?_⟩
  show msg ++ pad ((msg.length * 8) % M64) = msg
  rw [h]
  simp [show pad ((64 * 8) % M64) = [] from by decide]

theorem pad_512_empty_witness :
    (List.replicate 64 0).length = 64 ∧
    ((List.replicate 64 (0 : Nat)).length * 8) % 512 = 0 ∧
    pad (((List.replicate 64 (0 : Nat)).length * 8) % M64) = [] ∧
    (messageS (List.replicate 64 0)).2 = List.replicate 64 0 :=
  ⟨by decide, pad_512_empty (List.replicate 64 0) (by decide)⟩

/-- C5 counterexample: at the nonzero multiple-of-512 bit-length 512 the
returned padding is empty, so it does not end with the 8-byte big-endian
encoding of the bit-length. -/
theorem pad_512_drops_length_suffix :
    ¬ ∃ pre, pad 512 = pre ++ be64 512 := by
  rintro ⟨pre, hpre⟩
  rw [show pad 512 = [] from by decide] at hpre
  rw [show be64 512 = [0, 0, 0, 0, 0, 0, 2, 0] from by decide] at hpre
  simp at hpre

/-- C5 (amended): in every branch of `pad` except the
nonzero-multiple-of-512 branch (which returns early with empty padding and
no suffix), the returned padding ends with the 8 bytes of `bitLength` as a
64-bit big-endian integer. -/
theorem pad_ends_with_length_suffix (l : Nat) (h : l % 512 = 0 → l = 0) :
    ∃ pre, pad l = pre ++ be64 l := by
  unfold pad
  by_cases h0 : l = 0
  · simp only [h0, if_true]
    exact ⟨_, rfl⟩
  · have h512 : ¬ (l % 512 = 0) := fun hc => h0 (h hc)
    simp only [h0, h512, if_false]
    split
    · exact ⟨_, rfl⟩
    · exact ⟨_, rfl⟩

theorem pad_ends_with_length_suffix_witness :
    ((24 : Nat) % 512 = 0 → (24 : Nat) = 0) ∧ ∃ pre, pad 24 = pre ++ be64 24 :=
  ⟨by decide, pad_ends_with_length_suffix 24 (by decide)⟩

/-! ## Frame effect of `message` on its buffer -/

/-- C9: `message` appends exactly the computed padding to the caller's
buffer and never removes it: afterwards the buffer is the original bytes
followed by `pad` of the bit-length, with the original bytes unchanged in
place. -/
theorem message_buffer_frame (m : List Nat) :
    (messageS m).2 = m ++ pad ((m.length * 8) % M64) ∧
    ((messageS m).2).take m.length = m ∧
    ((messageS m).2).drop m.length = pad ((m.length * 8) % M64) := by
  refine ⟨rfl, ?_, ?_⟩
  · show (m ++ pad ((m.length * 8) % M64)).take m.length = m
    simp
  · show (m ++ pad ((m.length * 8) % M64)).drop m.length = pad ((m.length * 8) % M64)
    simp

/-! ## Totality of the Word operations -/

/-- C7 counterexample: `Word::operator/` is not defined on a zero
right-hand operand (`uint32_t` division by zero is undefined behaviour),
so not every Word operation is total. -/
theorem wordDiv_zero_undefined : ¬ (wordDiv 1 0).isSome := by decide

/-- C7 (amended): division and modulo are defined exactly for nonzero
right-hand operands and the shifts exactly for counts below 32, while the
rotations are total for every count and always produce a 32-bit value. -/
theorem word_ops_partiality (a b n : Nat) :
    ((wordDiv a b).isSome ↔ b ≠ 0) ∧ ((wordMod a b).isSome ↔ b ≠ 0) ∧
    ((wordShl a n).isSome ↔ n < 32) ∧ ((wordShr a n).isSome ↔ n < 32) ∧
    wordRotl a n < M32 ∧ wordRotr a n < M32 := by
  refine ⟨?_, ?_, ?_, ?_, ?_, ?_⟩
  · unfold wordDiv; split <;> simp_all
  · unfold wordMod; split <;> simp_all
  · unfold wordShl; split <;> simp_all
  · unfold wordShr; split <;> simp_all
  · exact Nat.mod_lt _ (by norm_num [M32])
  · exact Nat.mod_lt _ (by norm_num [M32])

/-! ## The CLI `-` flag -/

/-- C8 counterexample: after a second `-` the code still double-hashes the
following files, while the toggling reading of the claim would switch
double-hashing back off. -/
theorem cli_dash_is_not_a_toggle :
    cliProcess false ["a", "-", "b", "-", "c"] =
      [("a", false), ("b", true), ("c", true)] ∧
    cliToggle false ["a", "-", "b", "-", "c"] =
      [("a", false), ("b", true), ("c", false)] := by
  constructor
  · decide
  · decide

/-- C8 (amended): every `-` turns the double-hash flag on for all files
listed after it and it is never turned off again; files listed before the
`-` keep the flag that was in effect for them. -/
theorem cli_dash_sets_flag_for_suffix (dh : Bool) (pre rest : List String) :
    cliProcess dh (pre ++ rest) =
      cliProcess dh pre ++ cliProcess (dh || pre.contains "-") rest := by
  induction pre generalizing dh with
  | nil => simp [cliProcess]
  | cons a pre ih =>
    by_cases ha : a = "-"
    · subst ha
      simp [cliProcess, ih true, List.contains_cons]
    · have ha' : ¬ ("-" = a) := fun hc => ha hc.symm
      simp [cliProcess, ha, ha', ih dh, List.contains_cons]

/-! ## Known-answer test -/

set_option maxRecDepth 100000

/-- C1: the digest of the 3-byte ASCII message "abc" is the NIST
known-answer value, and its big-endian lowercase-hex serialization is
`ba7816bf8f01cfea414140de5dae2223b00361a396177a9cb410ff61f20015ad`. -/
theorem abc_digest_known_answer :
    message ("abc".data.map Char.toNat) =
      [0xba7816bf, 0x8f01cfea, 0x414140de, 0x5dae2223,
       0xb00361a3, 0x96177a9c, 0xb410ff61, 0xf20015ad] ∧
    digestHex (message ("abc".data.map Char.toNat)) =
      "ba7816bf8f01cfea414140de5dae2223b00361a396177a9cb410ff61f20015ad" := by
  constructor
  · decide
  · decide

/-! ## The double-hash shortcut -/

/-- C2: `hashDigest` does not equal `digest` of the 32-byte big-endian
serialization: at the digest of "abc" the two sides differ, because
`startPad` ends with the length word 0x200 where a 32-byte (256-bit)
message is padded with the length word 0x100. -/
theorem hashDigest_ne_digest_of_serialized :
    hashDigest (message [97, 98, 99]) ≠
      message (serializeDigest (message [97, 98, 99])) := by decide

/-- Modelled from the spec: the padding block that a 256-bit (32-byte)
message actually requires under standard padding - `0x80000000`, six zero
words, then the 64-bit bit-length 256 = 0x100 (where the code's `startPad`
has 0x200). -/
def specStartPad : List Nat :=
  [0x80000000, 0x00000000, 0x00000000, 0x00000000,
   0x00000000, 0x00000000, 0x00000000, 0x00000100]

theorem lor_shift_add (u v k : Nat) (hv : v < 2 ^ k) :
    (u <<< k) ||| v = u <<< k + v := by
  rw [Nat.shiftLeft_eq, Nat.mul_comm u (2 ^ k)]
  exact (Nat.mul_add_lt_is_or hv u).symm

theorem toWord_be (w : Nat) (hw : w < 2 ^ 32) :
    toWord ((w >>> 24) % 256) ((w >>> 16) % 256) ((w >>> 8) % 256) (w % 256)
      = w := by
  have h1 : ∀ u v : Nat, v < 256 → (u <<< 8) ||| v = u * 256 + v := by
    intro u v hv
    rw [lor_shift_add u v 8 (by omega), Nat.shiftLeft_eq]
  unfold toWord
  rw [h1 _ _ (Nat.mod_lt _ (by norm_num)), h1 _ _ (Nat.mod_lt _ (by norm_num)),
    h1 _ _ (Nat.mod_lt _ (by norm_num))]
  rw [Nat.shiftRight_eq_div_pow, Nat.shiftRight_eq_div_pow,
    Nat.shiftRight_eq_div_pow, show M32 = 4294967296 from by norm_num [M32]]
  norm_num
  omega

/-- The digest words produced by `runschedule` are 8 words below
`2 ^ 32`. -/
theorem runschedule_shape (W H : List Nat) :
    (runschedule W H).length = 8 ∧ ∀ w ∈ runschedule W H, w < 2 ^ 32 := by
  unfold runschedule
  refine ⟨rfl, ?_⟩
  intro w hw
  simp only [List.mem_cons, List.not_mem_nil, or_false] at hw
  rcases hw with rfl | rfl | rfl | rfl | rfl | rfl | rfl | rfl <;>
    exact Nat.mod_lt _ (by norm_num [M32])

/-- The digest returned by `message` is 8 words below `2 ^ 32`. -/
theorem message_shape (m : List Nat) :
    (message m).length = 8 ∧ ∀ w ∈ message m, w < 2 ^ 32 := by
  have hgen : ∀ (bs : List (List Nat)) (H : List Nat), H.length = 8 →
      (∀ w ∈ H, w < 2 ^ 32) →
      (bs.foldl (fun H B => runschedule (schedule B) H) H).length = 8 ∧
      ∀ w ∈ bs.foldl (fun H B => runschedule (schedule B) H) H, w < 2 ^ 32 := by
    intro bs
    induction bs with
    | nil => exact fun H hl hb => ⟨hl, hb⟩
    | cons B bs ih =>
        intro H hl hb
        exact ih _ (runschedule_shape _ _).1 (runschedule_shape _ _).2
  exact hgen _ H0 (by decide) (by decide)

theorem exists_eight {l : List Nat} (hl : l.length = 8) :
    ∃ a b c d e f g h', l = [a, b, c, d, e, f, g, h'] := by
  match l, hl with
  | [a, b, c, d, e, f, g, h'], _ => exact ⟨a, b, c, d, e, f, g, h', rfl⟩

theorem digest_serialize_correct_pad (d0 d1 d2 d3 d4 d5 d6 d7 : Nat)
    (h0 : d0 < 2 ^ 32) (h1 : d1 < 2 ^ 32) (h2 : d2 < 2 ^ 32)
    (h3 : d3 < 2 ^ 32) (h4 : d4 < 2 ^ 32) (h5 : d5 < 2 ^ 32)
    (h6 : d6 < 2 ^ 32) (h7 : d7 < 2 ^ 32) :
    message (serializeDigest [d0, d1, d2, d3, d4, d5, d6, d7]) =
      runschedule (schedule ([d0, d1, d2, d3, d4, d5, d6, d7] ++ specStartPad))
        H0 := by
  unfold message messageS
  simp only [serializeDigest, List.map, List.flatten, List.cons_append,
    List.nil_append, List.append_nil, List.length_cons, List.length_nil]
  norm_num
  rw [show (32 * 8) % M64 = 256 from by decide]
  rw [show pad 256 =
      [128, 0, 0, 0, 0, 0, 0, 0, 0, 0, 0, 0, 0, 0, 0, 0,
       0, 0, 0, 0, 0, 0, 0, 0, 0, 0, 0, 0, 0, 0, 1, 0] from by decide]
  simp only [words4, List.cons_append, List.nil_append]
  rw [show toWord 128 0 0 0 = 0x80000000 from by decide,
    show toWord 0 0 0 0 = 0 from by decide,
    show toWord 0 0 1 0 = 0x00000100 from by decide]
  rw [toWord_be d0 h0, toWord_be d1 h1, toWord_be d2 h2, toWord_be d3 h3,
    toWord_be d4 h4, toWord_be d5 h5, toWord_be d6 h6, toWord_be d7 h7]
  simp only [chunk16, List.foldl, specStartPad]

/-- What the double-hash shortcut would have to match: for every message,
`digest` of the big-endian serialization of `digest m` is one
schedule-and-compress pass from `H0` over the digest words followed by
`specStartPad` — i.e. `hashDigest` with its final length word corrected
from 0x200 to 0x100. -/
theorem digest_serialize_eq_fixed_block (m : List Nat) :
    message (serializeDigest (message m)) =
      runschedule (schedule (message m ++ specStartPad)) H0 := by
  obtain ⟨hlen, hbound⟩ := message_shape m
  obtain ⟨d0, d1, d2, d3, d4, d5, d6, d7, hm⟩ := exists_eight hlen
  rw [hm] at hbound ⊢
  exact digest_serialize_correct_pad d0 d1 d2 d3 d4 d5 d6 d7
    (hbound d0 (by simp)) (hbound d1 (by simp)) (hbound d2 (by simp))
    (hbound d3 (by simp)) (hbound d4 (by simp)) (hbound d5 (by simp))
    (hbound d6 (by simp)) (hbound d7 (by simp))

/-! ## Rotation round-trip -/

theorem rot_sum_lt (x n : Nat) (hx : x < 2 ^ 32) (hn : n < 32) :
    2 ^ n * (x % 2 ^ (32 - n)) + x / 2 ^ (32 - n) < 2 ^ 32 := by
  have hp : (2 : Nat) ^ (32 - n) * 2 ^ n = 2 ^ 32 := by
    rw [← pow_add]
    congr 1
    omega
  have hq : x / 2 ^ (32 - n) < 2 ^ n := by
    apply Nat.div_lt_of_lt_mul
    rw [hp]
    exact hx
  have hr : x % 2 ^ (32 - n) < 2 ^ (32 - n) := Nat.mod_lt _ (Nat.two_pow_pos _)
  calc 2 ^ n * (x % 2 ^ (32 - n)) + x / 2 ^ (32 - n)
      < 2 ^ n * (x % 2 ^ (32 - n)) + 2 ^ n := Nat.add_lt_add_left hq _
    _ = 2 ^ n * (x % 2 ^ (32 - n) + 1) := by ring
    _ ≤ 2 ^ n * 2 ^ (32 - n) := Nat.mul_le_mul_left _ (Nat.succ_le_of_lt hr)
    _ = 2 ^ 32 := by rw [← pow_add]; congr 1; omega

theorem rotl_val (x n : Nat) (hx : x < 2 ^ 32) (hn0 : 0 < n) (hn : n < 32) :
    wordRotl x n = 2 ^ n * (x % 2 ^ (32 - n)) + x / 2 ^ (32 - n) := by
  have hmod : n % 32 = n := Nat.mod_eq_of_lt hn
  have hp : (2 : Nat) ^ (32 - n) * 2 ^ n = 2 ^ 32 := by
    rw [← pow_add]
    congr 1
    omega
  have hq : x >>> (32 - n) < 2 ^ n := by
    rw [Nat.shiftRight_eq_div_pow]
    apply Nat.div_lt_of_lt_mul
    rw [hp]
    exact hx
  unfold wordRotl
  rw [hmod, show (32 - n) % 32 = 32 - n from Nat.mod_eq_of_lt (by omega)]
  rw [lor_shift_add x (x >>> (32 - n)) n hq]
  rw [Nat.shiftLeft_eq, Nat.shiftRight_eq_div_pow]
  have e1 : x * 2 ^ n =
      2 ^ 32 * (x / 2 ^ (32 - n)) + 2 ^ n * (x % 2 ^ (32 - n)) := by
    conv_lhs => rw [← Nat.div_add_mod x (2 ^ (32 - n))]
    calc (2 ^ (32 - n) * (x / 2 ^ (32 - n)) + x % 2 ^ (32 - n)) * 2 ^ n
        = (2 ^ (32 - n) * 2 ^ n) * (x / 2 ^ (32 - n)) +
            2 ^ n * (x % 2 ^ (32 - n)) := by ring
      _ = 2 ^ 32 * (x / 2 ^ (32 - n)) + 2 ^ n * (x % 2 ^ (32 - n)) := by
            rw [hp]
  show (x * 2 ^ n + x / 2 ^ (32 - n)) % M32 = _
  rw [e1, Nat.add_assoc, show M32 = 2 ^ 32 from rfl, Nat.mul_add_mod]
  exact Nat.mod_eq_of_lt (rot_sum_lt x n hx hn)

theorem rotr_eq_rotl (y n : Nat) (hn0 : 0 < n) (hn : n < 32) :
    wordRotr y n = wordRotl y (32 - n) := by
  unfold wordRotl wordRotr
  rw [Nat.mod_eq_of_lt hn, Nat.mod_eq_of_lt (show 32 - n < 32 by omega),
    show (32 - (32 - n)) % 32 = n by omega, Nat.lor_comm]

theorem rotl_rotl_inv (x n : Nat) (hx : x < 2 ^ 32) (hn0 : 0 < n)
    (hn : n < 32) : wordRotl (wordRotl x n) (32 - n) = x := by
  rw [rotl_val x n hx hn0 hn]
  have hq : x / 2 ^ (32 - n) < 2 ^ n := by
    apply Nat.div_lt_of_lt_mul
    rw [show (2 : Nat) ^ (32 - n) * 2 ^ n = 2 ^ 32 from by
      rw [← pow_add]; congr 1; omega]
    exact hx
  rw [rotl_val _ (32 - n) (rot_sum_lt x n hx hn) (by omega) (by omega)]
  rw [show 32 - (32 - n) = n from by omega]
  have hmod : (2 ^ n * (x % 2 ^ (32 - n)) + x / 2 ^ (32 - n)) % 2 ^ n =
      x / 2 ^ (32 - n) := by
    rw [Nat.mul_add_mod]
    exact Nat.mod_eq_of_lt hq
  have hdiv : (2 ^ n * (x % 2 ^ (32 - n)) + x / 2 ^ (32 - n)) / 2 ^ n =
      x % 2 ^ (32 - n) := by
    rw [Nat.mul_add_div (Nat.two_pow_pos n), Nat.div_eq_of_lt hq,
      Nat.add_zero]
  rw [hmod, hdiv]
  exact Nat.div_add_mod x (2 ^ (32 - n))

theorem rot_zero (y : Nat) (hy : y < 2 ^ 32) :
    wordRotl y 0 = y ∧ wordRotr y 0 = y := by
  unfold wordRotl wordRotr
  norm_num
  exact Nat.mod_eq_of_lt hy

/-- C10: for every 32-bit word and every rotation count below 32,
`Word::rotl` followed by `Word::rotr` by the same count returns the word,
and conversely: the two circular rotations are mutually inverse. -/
theorem rotl_rotr_inverse (x n : Nat) (hx : x < M32) (hn : n < 32) :
    wordRotr (wordRotl x n) n = x ∧ wordRotl (wordRotr x n) n = x := by
  have hx' : x < 2 ^ 32 := hx
  by_cases h0 : n = 0
  · subst h0
    have h1 := rot_zero x hx'
    rw [h1.1, h1.2]
    exact ⟨rfl, h1.1⟩
  · have hn0 : 0 < n := Nat.pos_of_ne_zero h0
    constructor
    · rw [rotr_eq_rotl _ n hn0 hn]
      exact rotl_rotl_inv x n hx' hn0 hn
    · rw [rotr_eq_rotl _ n hn0 hn]
      have h2 := rotl_rotl_inv x (32 - n) hx' (by omega) (by omega)
      rw [show 32 - (32 - n) = n from by omega] at h2
      exact h2

/-! ## The compression rounds -/

/-- Modelled from the spec §4.4: the round-`t` update of the working
variables, `T1 = h + Σ1(e) + Ch(e,f,g) + K[t] + W[t]`,
`T2 = Σ0(a) + Maj(a,b,c)`, then
`h=g; g=f; f=e; e=d+T1; d=c; c=b; b=a; a=T1+T2`, all modulo `2 ^ 32`. -/
def specRound (W : List Nat) (t : Nat) (s : WorkVars) : WorkVars :=
  let T1 := (s.h + sigma_4_5 s.e + Ch s.e s.f s.g + K.getD t 0 + W.getD t 0) % M32
  let T2 := (sigma_4_4 s.a + Maj s.a s.b s.c) % M32
  { a := (T1 + T2) % M32, b := s.a, c := s.b, d := s.c,
    e := (s.d + T1) % M32, f := s.e, g := s.f, h := s.g }

/-- Modelled from the spec §4.4: the first `n` rounds of the recurrence,
applied for `t = 0, 1, ..., n-1` in order. -/
def specRounds (W : List Nat) : Nat → WorkVars → WorkVars
  | 0, s => s
  | t + 1, s => specRound W t (specRounds W t s)

/-- Modelled from the spec §4.4: `compress` initialises `a..h` from the
state, runs the 64 rounds, and returns the word-wise mod-2^32 sum of the
original state and the final working variables. -/
def compressSpec (W H : List Nat) : List Nat :=
  let s := specRounds W 64 (initWork H)
  [(H.getD 0 0 + s.a) % M32, (H.getD 1 0 + s.b) % M32,
   (H.getD 2 0 + s.c) % M32, (H.getD 3 0 + s.d) % M32,
   (H.getD 4 0 + s.e) % M32, (H.getD 5 0 + s.f) % M32,
   (H.getD 6 0 + s.g) % M32, (H.getD 7 0 + s.h) % M32]

theorem zipKW_length (W : List Nat) (hW : W.length = 64) :
    (K.zip W).length = 64 := by
  rw [List.length_zip, hW, show K.length = 64 from rfl]
  simp

theorem foldl_take_specRounds (W : List Nat) (hW : W.length = 64)
    (s : WorkVars) :
    ∀ n, n ≤ 64 → ((K.zip W).take n).foldl roundStep s = specRounds W n s := by
  intro n
  induction n with
  | zero => intro _; rfl
  | succ n ih =>
    intro hn
    have hn64 : n < (K.zip W).length := by rw [zipKW_length W hW]; omega
    rw [List.take_succ, List.getElem?_eq_getElem hn64, Option.toList_some,
      List.foldl_append, ih (by omega)]
    show roundStep (specRounds W n s) ((K.zip W)[n]) = specRound W n (specRounds W n s)
    have hKn : n < K.length := by rw [show K.length = 64 from rfl]; omega
    have hWn : n < W.length := by omega
    rw [List.getElem_zip]
    show roundStep _ (K[n], W[n]) = _
    unfold roundStep specRound
    rw [List.getD_eq_getElem K 0 hKn, List.getD_eq_getElem W 0 hWn]

/-- C6: `runschedule` computes exactly the specified compression: working
variables initialised from `H`, 64 rounds of the
`T1`/`T2` recurrence with the stated variable rotation, and the word-wise
mod-2^32 sum of the original state with the final working variables. -/
theorem runschedule_eq_compressSpec (W H : List Nat) (hW : W.length = 64)
    (_hH : H.length = 8) : runschedule W H = compressSpec W H := by
  unfold runschedule compressSpec
  have hfold : (K.zip W).foldl roundStep (initWork H) =
      specRounds W 64 (initWork H) := by
    conv_lhs => rw [← List.take_length (K.zip W)]
    rw [zipKW_length W hW]
    exact foldl_take_specRounds W hW (initWork H) 64 (Nat.le_refl _)
  rw [hfold]

theorem runschedule_eq_compressSpec_witness :
    (List.replicate 64 (0 : Nat)).length = 64 ∧ H0.length = 8 ∧
    runschedule (List.replicate 64 0) H0 = compressSpec (List.replicate 64 0) H0 :=
  ⟨by decide, by decide,
   runschedule_eq_compressSpec (List.replicate 64 0) H0 (by decide) (by decide)⟩

theorem rotl_rotr_inverse_witness :
    (0xdeadbeef : Nat) < M32 ∧ (7 : Nat) < 32 ∧
    wordRotr (wordRotl 0xdeadbeef 7) 7 = 0xdeadbeef ∧
    wordRotl (wordRotr 0xdeadbeef 7) 7 = 0xdeadbeef := by
  refine ⟨by norm_num [M32], by norm_num, ?_, ?_⟩
  · exact (rotl_rotr_inverse 0xdeadbeef 7 (by norm_num [M32]) (by norm_num)).1
  · exact (rotl_rotr_inverse 0xdeadbeef 7 (by norm_num [M32]) (by norm_num)).2

end Sha
